import Mathlib

/-!
Verification of the content-addressed tree/blob storage core:
`DataEntry` hash validation (src/lib/types/src/dataentry.rs) and the
manifest parser / tree loader (src/blobrepo/src/manifest.rs), embedded
shallowly.  Bytes are `Nat` values below 256; byte strings are `List Nat`.
-/

namespace Sapling

instance {ε α : Type} [DecidableEq ε] [DecidableEq α] : DecidableEq (Except ε α) := fun
  | .error e1, .error e2 =>
    match decEq e1 e2 with
    | isTrue h => isTrue (by rw [h])
    | isFalse h => isFalse (by intro hh; cases hh; exact h rfl)
  | .error _, .ok _ => isFalse (by intro h; cases h)
  | .ok _, .error _ => isFalse (by intro h; cases h)
  | .ok a1, .ok a2 =>
    match decEq a1 a2 with
    | isTrue h => isTrue (by rw [h])
    | isFalse h => isFalse (by intro hh; cases hh; exact h rfl)

/-- A 20-byte content-derived identifier (`Node` / `HgNodeHash`). -/
abbrev Node := List Nat

/-- The distinguished all-zero null Node (`NULL_HASH`). -/
def NULL_HASH : Node := List.replicate 20 0

/-- Lexicographic strict order on byte sequences: the order that Rust's
derived `Ord` on `[u8; 20]` (and on byte vectors) induces. -/
def bytesLt : List Nat → List Nat → Bool
  | [], [] => false
  | [], _ :: _ => true
  | _ :: _, [] => false
  | a :: as, b :: bs => if a < b then true else if a = b then bytesLt as bs else false

/-- `a > b` on byte sequences, as used by `DataEntry::validate`. -/
def bytesGt (a b : List Nat) : Bool := bytesLt b a

/-! ## SHA-1

`DataEntry::validate` uses `crypto::sha1::Sha1`, the standard SHA-1
function (FIPS 180-1).  We implement it over byte lists: 32-bit words are
`Nat` values reduced mod 2^32. -/

/-- Truncate to a 32-bit word. -/
def u32 (n : Nat) : Nat := n % 4294967296

/-- Rotate a 32-bit word left by `n` bits. -/
def rotl (n x : Nat) : Nat := u32 (x <<< n) ||| (x >>> (32 - n))

/-- Big-endian 32-bit word from four bytes. -/
def wordOfBytes (b0 b1 b2 b3 : Nat) : Nat := ((b0 * 256 + b1) * 256 + b2) * 256 + b3

/-- Group a byte list into big-endian 32-bit words (length a multiple of 4). -/
def toWords : List Nat → List Nat
  | b0 :: b1 :: b2 :: b3 :: rest => wordOfBytes b0 b1 b2 b3 :: toWords rest
  | _ => []

/-- Big-endian bytes of a 32-bit word. -/
def bytesOfWord (w : Nat) : List Nat :=
  [w / 16777216 % 256, w / 65536 % 256, w / 256 % 256, w % 256]

/-- Big-endian 8-byte encoding of a 64-bit length. -/
def bytesOfLen64 (n : Nat) : List Nat :=
  bytesOfWord (n / 4294967296 % 4294967296) ++ bytesOfWord (n % 4294967296)

/-- SHA-1 message padding: append 0x80, zero bytes to 56 mod 64, then the
bit length as a 64-bit big-endian integer. -/
def sha1pad (msg : List Nat) : List Nat :=
  let len := msg.length
  let zeros := (120 - (len + 1) % 64) % 64
  msg ++ [128] ++ List.replicate zeros 0 ++ bytesOfLen64 (8 * len)

/-- Extend the 16 words of one block to the 80-word SHA-1 message schedule. -/
def sha1Schedule (ws : List Nat) : List Nat :=
  (List.range 80).foldl
    (fun acc i =>
      if i < 16 then acc ++ [ws.getD i 0]
      else
        acc ++ [rotl 1 ((((acc.getD (i - 3) 0).xor (acc.getD (i - 8) 0)).xor
          (acc.getD (i - 14) 0)).xor (acc.getD (i - 16) 0))])
    []

/-- One SHA-1 round: update the five-word state with round `i`. -/
def sha1Round (w : List Nat) (st : Nat × Nat × Nat × Nat × Nat) (i : Nat) :
    Nat × Nat × Nat × Nat × Nat :=
  let (a, b, c, d, e) := st
  let f :=
    if i < 20 then (b.land c).lor ((b.xor 4294967295).land d)
    else if i < 40 then (b.xor c).xor d
    else if i < 60 then ((b.land c).lor (b.land d)).lor (c.land d)
    else (b.xor c).xor d
  let k :=
    if i < 20 then 1518500249
    else if i < 40 then 1859775393
    else if i < 60 then 2400959708
    else 3395469782
  let temp := u32 (rotl 5 a + f + e + k + w.getD i 0)
  (temp, a, rotl 30 b, c, d)

/-- Compress one 64-byte block into the running hash state. -/
def sha1Block (h : Nat × Nat × Nat × Nat × Nat) (block : List Nat) :
    Nat × Nat × Nat × Nat × Nat :=
  let (h0, h1, h2, h3, h4) := h
  let w := sha1Schedule (toWords block)
  let (a, b, c, d, e) := (List.range 80).foldl (sha1Round w) (h0, h1, h2, h3, h4)
  (u32 (h0 + a), u32 (h1 + b), u32 (h2 + c), u32 (h3 + d), u32 (h4 + e))

/-- Split a byte list into 64-byte chunks (structural recursion on a fuel
bound, so that the kernel can evaluate it). -/
def chunksAux : Nat → List Nat → List (List Nat)
  | 0, _ => []
  | _, [] => []
  | fuel + 1, l => l.take 64 :: chunksAux fuel (l.drop 64)

/-- Split a byte list into 64-byte chunks. -/
def chunks64 (l : List Nat) : List (List Nat) := chunksAux l.length l

/-- SHA-1 of a byte list, as a 20-byte digest. -/
def sha1 (msg : List Nat) : List Nat :=
  let (h0, h1, h2, h3, h4) :=
    (chunks64 (sha1pad msg)).foldl sha1Block
      (1732584193, 4023233417, 2562383102, 271733878, 3285377520)
  bytesOfWord h0 ++ bytesOfWord h1 ++ bytesOfWord h2 ++ bytesOfWord h3 ++ bytesOfWord h4

/-- The smaller of two byte sequences under the lexicographic order. -/
def bytesMin (a b : List Nat) : List Nat := if bytesLt b a then b else a

/-- The larger of two byte sequences under the lexicographic order. -/
def bytesMax (a b : List Nat) : List Nat := if bytesLt b a then a else b

/-- Lowercase hex digit character (as a byte) for a value below 16. -/
def hexDigitChar (n : Nat) : Nat := if n < 10 then 48 + n else 87 + n

/-- Lowercase hex rendering of a byte sequence (`Node::to_hex`), as the list
of ASCII character codes. -/
def to_hex : List Nat → List Nat
  | [] => []
  | b :: rest => hexDigitChar (b / 16) :: hexDigitChar (b % 16) :: to_hex rest

/-! ## DataEntry (src/lib/types/src/dataentry.rs) -/

/-- Modelled from the spec: `Key` (src/lib/types/src/key.rs is not in the
sources) is the logical identity of a piece of content, conceptually
(path, Node); `DataEntry::validate` reads only `key.node`. -/
structure Key where
  path : List Nat
  node : Node

/-- Modelled from the spec: `Parents` (src/lib/types/src/parents.rs is not in
the sources) is a pair of up to two optional Node values (p1, p2), each
independently possibly absent. -/
structure Parents where
  p1 : Option Node
  p2 : Option Node

/-- Modelled from the spec: `Parents::into_nodes` maps each absent parent to
the null Node. -/
def Parents.into_nodes (p : Parents) : Node × Node :=
  (p.p1.getD NULL_HASH, p.p2.getD NULL_HASH)

/-- `DataEntry`: a content identity key, the raw data payload, and the
parent information used for hash verification. -/
structure DataEntry where
  key : Key
  data : List Nat
  parents : Parents

/-- The content-hash-mismatch error produced by `DataEntry::validate`: the
message names the expected and computed identities rendered in hex. -/
structure HashMismatch where
  expected_hex : List Nat
  computed_hex : List Nat
deriving DecidableEq

/-- `DataEntry::validate`: sort the two parent nodes (swapping them when
`p1 > p2` in byte order), hash `p1 || p2 || data` with SHA-1, and compare
the digest with the node stored in the entry's key. -/
def DataEntry.validate (e : DataEntry) : Except HashMismatch Unit :=
  let (p1, p2) :=
    match e.parents.into_nodes with
    | (p1, p2) => if bytesGt p1 p2 then (p2, p1) else (p1, p2)
  let computed : Node := sha1 (p1 ++ p2 ++ e.data)
  let expected : Node := e.key.node
  if computed = expected then .ok ()
  else .error ⟨to_hex expected, to_hex computed⟩

/-- `DataEntry::data(validate)`: return the payload, first running
`validate()` and propagating its failure when the flag is set. -/
def DataEntry.get_data (e : DataEntry) (validate : Bool) :
    Except HashMismatch (List Nat) :=
  if validate then
    match e.validate with
    | .error err => .error err
    | .ok () => .ok e.data
  else .ok e.data

/-! ## Manifest (src/blobrepo/src/manifest.rs) -/

/-- Mercurial file types. -/
inductive FileType
  | regular
  | symlink
  | executable
deriving DecidableEq

/-- A typed entry identity: file content (with a file type) or a nested
manifest (tree), each carrying a node. -/
inductive HgEntryId
  | file (ft : FileType) (id : Node)
  | manifest (id : Node)
deriving DecidableEq

/-- `Type` from mercurial_types: a file (with type) or a tree. -/
inductive HgType
  | file (ft : FileType)
  | tree
deriving DecidableEq

/-- `HgEntryId::into_nodehash`: the underlying node of an entry identity. -/
def HgEntryId.into_nodehash : HgEntryId → Node
  | .file _ id => id
  | .manifest id => id

/-- `HgEntryId::get_type`. -/
def HgEntryId.get_type : HgEntryId → HgType
  | .file ft _ => .file ft
  | .manifest _ => .tree

/-- Structured errors of the manifest module.  Constructors carrying an
`inner` error embed the `context`/`with_context` wrappers of the source,
which attach a message while preserving the underlying cause. -/
inductive MError
  | noNul
  | noHash
  | invalidPath (name : List Nat)
  | hashTooSmall (data : List Nat)
  | malformedHash (hash : List Nat)
  | tooManyFlags (flags : List Nat)
  | unknownFlag (b : Nat)
  | envelopeDecodeFailed
  | idMismatch (requested got : Node)
  | hgContentMissing (n : Node) (t : HgType)
  | invalidPathInManifest (inner : MError)
  | parsingManifestContents (nodeId : Node) (inner : MError)
  | manifestDeserializeFailed (key : Node) (inner : MError)
  | loadingManifest (nodeId : Node) (inner : MError)
deriving DecidableEq

/-- A single path component (`MPathElement`), as its raw bytes. -/
abbrev PathEl := List Nat

/-- Modelled from the spec: `MPathElement::new` (mercurial_types, not in the
sources) validates a path component: a non-empty byte sequence containing
neither the zero byte (field separator) nor the newline byte (record
separator); invalid input is a hard error. -/
def MPathElement.new (name : List Nat) : Except MError PathEl :=
  if name.isEmpty || name.contains 0 || name.contains 10 then
    .error (.invalidPath name)
  else .ok name

/-- Value of a single hex character (lowercase). -/
def hexVal (c : Nat) : Option Nat :=
  if 48 ≤ c ∧ c ≤ 57 then some (c - 48)
  else if 97 ≤ c ∧ c ≤ 102 then some (c - 87)
  else none

/-- Decode pairs of hex characters into bytes. -/
def parseHexBytes : List Nat → Option (List Nat)
  | [] => some []
  | c1 :: c2 :: rest =>
    match hexVal c1, hexVal c2, parseHexBytes rest with
    | some h, some l, some r => some ((16 * h + l) :: r)
    | _, _, _ => none
  | _ => none

/-- Modelled from the spec: parsing an `HgNodeHash` from its textual form
(mercurial_types, not in the sources): exactly 40 lowercase hex characters
decoding to a 20-byte node; any other length or a non-hex character fails. -/
def parseHgNodeHash (s : List Nat) : Option Node :=
  if s.length = 40 then parseHexBytes s else none

/-- `parse_hg_entry`: `<40-hex-char-node>[<flag-byte>]` into an entry
identity.  Checks, in source order: at least 40 bytes, the hash parses, at
most one flag byte, and the flag byte is one of `l`, `x`, `t` (or absent). -/
def parse_hg_entry (data : List Nat) : Except MError HgEntryId :=
  if data.length < 40 then .error (.hashTooSmall data)
  else
    let hash := data.take 40
    let flags := data.drop 40
    match parseHgNodeHash hash with
    | none => .error (.malformedHash hash)
    | some node =>
      if flags.length ≤ 1 then
        match flags with
        | [] => .ok (.file .regular node)
        | f :: _ =>
          if f = 108 then .ok (.file .symlink node)
          else if f = 120 then .ok (.file .executable node)
          else if f = 116 then .ok (.manifest node)
          else .error (.unknownFlag f)
      else .error (.tooManyFlags flags)

/-- `find`: index of the first occurrence of `needle`
(`haystack.iter().position(|e| e == needle)`). -/
def find (haystack : List Nat) (needle : Nat) : Option Nat :=
  match haystack with
  | [] => none
  | x :: xs => if x = needle then some 0 else (find xs needle).map (· + 1)

/-- Rust's `slice::split` on a separator byte: the pieces between
separators, with an empty piece after a trailing separator and a single
empty piece for the empty input. -/
def splitByte (sep : Nat) : List Nat → List (List Nat)
  | [] => [[]]
  | b :: rest =>
    let r := splitByte sep rest
    if b = sep then [] :: r
    else
      match r with
      | [] => [[b]]
      | h :: t => (b :: h) :: t

/-- Insertion into a `BTreeMap` represented as an association list sorted
strictly by `bytesLt` on keys; an existing binding of the key is replaced. -/
def btInsert (k : PathEl) (v : HgEntryId) :
    List (PathEl × HgEntryId) → List (PathEl × HgEntryId)
  | [] => [(k, v)]
  | (k', v') :: rest =>
    if bytesLt k k' then (k, v) :: (k', v') :: rest
    else if k = k' then (k, v) :: rest
    else (k', v') :: btInsert k v rest

/-- `BTreeMap::get` on the sorted association list. -/
def btGet (k : PathEl) : List (PathEl × HgEntryId) → Option HgEntryId
  | [] => none
  | (k', v') :: rest => if k = k' then some v' else btGet k rest

/-- The body of the record loop of `ManifestContent::parse_impl` for one
non-empty line: find the zero separator (no separator is the "no \0"
error), split into name and hash (an empty remainder is the "no hash"
error), validate the path (wrapping its failure in the "invalid path in
manifest" context) and parse the entry. -/
def parseLine (line : List Nat) : Except MError (PathEl × HgEntryId) :=
  match find line 0 with
  | none => .error .noNul
  | some nil =>
    let name := line.take nil
    let after := line.drop nil
    match after with
    | [] => .error .noHash
    | _ :: hash =>
      match MPathElement.new name with
      | .error e => .error (.invalidPathInManifest e)
      | .ok path =>
        match parse_hg_entry hash with
        | .error e => .error e
        | .ok entry_id => .ok (path, entry_id)

/-- The record loop of `ManifestContent::parse_impl` over the split lines:
an empty line breaks out of the loop, each other line is parsed by
`parseLine` and inserted into the accumulated map. -/
def parse_lines :
    List (List Nat) → List (PathEl × HgEntryId) →
    Except MError (List (PathEl × HgEntryId))
  | [], files => .ok files
  | line :: rest, files =>
    if line.length = 0 then .ok files
    else
      match parseLine line with
      | .error e => .error e
      | .ok (path, entry_id) => parse_lines rest (btInsert path entry_id files)

/-- `ManifestContent`: the ordered mapping from path element to entry
identity parsed out of a manifest payload. -/
structure ManifestContent where
  files : List (PathEl × HgEntryId)
deriving DecidableEq

/-- `ManifestContent::new_empty`. -/
def ManifestContent.new_empty : ManifestContent := ⟨[]⟩

/-- `ManifestContent::parse_impl`: split the payload on newline bytes and
run the record loop starting from the empty map. -/
def ManifestContent.parse_impl (data : List Nat) :
    Except MError (List (PathEl × HgEntryId)) :=
  parse_lines (splitByte 10 data) []

/-- `ManifestContent::parse`. -/
def ManifestContent.parse (data : List Nat) : Except MError ManifestContent :=
  match ManifestContent.parse_impl data with
  | .error e => .error e
  | .ok files => .ok ⟨files⟩

/-- The decoded manifest envelope (`HgManifestEnvelope::into_mut`'s view):
self-reported identity, optional parents, the diagnostic computed identity,
and the raw contents. -/
structure HgManifestEnvelope where
  node_id : Node
  p1 : Option Node
  p2 : Option Node
  computed_node_id : Node
  contents : List Nat
deriving DecidableEq

/-- Modelled from the spec: the blobstore, an asynchronous key-to-bytes
store, as a function from key to optional bytes.  The blobstore key is
derived injectively from the manifest id, so keys are represented by the
node itself. -/
def Blobstore := Node → Option (List Nat)

/-- Modelled from the spec: `HgManifestEnvelope::from_blob` (mercurial_types,
not in the sources) decodes raw blob bytes into an envelope or fails. -/
def EnvelopeDecoder := List Nat → Except Unit HgManifestEnvelope

/-- `fetch_manifest_envelope_opt`: query the blobstore; absent blobs give
`none`; present blobs are decoded, and the envelope's self-reported
identity must equal the requested one.  Any error in the chain is wrapped
in a `ManifestDeserializeFailed` context naming the blobstore key.  The
second component records the blobstore keys queried, in order. -/
def fetch_manifest_envelope_opt (store : Blobstore) (decode : EnvelopeDecoder)
    (node_id : Node) :
    Except MError (Option HgManifestEnvelope) × List Node :=
  let r : Except MError (Option HgManifestEnvelope) :=
    match store node_id with
    | none => .ok none
    | some bytes =>
      match decode bytes with
      | .error () => .error .envelopeDecodeFailed
      | .ok envelope =>
        if node_id ≠ envelope.node_id then
          .error (.idMismatch node_id envelope.node_id)
        else .ok (some envelope)
  (match r with
   | .error e => .error (.manifestDeserializeFailed node_id e)
   | .ok v => .ok v,
   [node_id])

/-- `fetch_manifest_envelope`: like the `_opt` flavor but an absent blob is
the `HgContentMissing` error. -/
def fetch_manifest_envelope (store : Blobstore) (decode : EnvelopeDecoder)
    (manifest_id : Node) : Except MError HgManifestEnvelope × List Node :=
  (match (fetch_manifest_envelope_opt store decode manifest_id).1 with
   | .error e => .error e
   | .ok none => .error (.hgContentMissing manifest_id .tree)
   | .ok (some envelope) => .ok envelope,
   (fetch_manifest_envelope_opt store decode manifest_id).2)

/-- `BlobManifest`: a resolved tree node. -/
structure BlobManifest where
  blobstore : Blobstore
  node_id : Node
  p1 : Option Node
  p2 : Option Node
  computed_node_id : Node
  content : ManifestContent

/-- `BlobManifest::parse`: parse the envelope contents (wrapping parse
failures in a context naming the envelope's node id) and keep the
envelope's identities verbatim. -/
def BlobManifest.parse (blobstore : Blobstore) (envelope : HgManifestEnvelope) :
    Except MError BlobManifest :=
  match ManifestContent.parse envelope.contents with
  | .error e => .error (.parsingManifestContents envelope.node_id e)
  | .ok content =>
    .ok ⟨blobstore, envelope.node_id, envelope.p1, envelope.p2,
      envelope.computed_node_id, content⟩

/-- `BlobManifest::load`: the null hash synthesizes an empty manifest with
no store access; otherwise fetch the envelope (absent gives `none`) and
parse it, wrapping errors in a context naming the manifest id.  The second
component records the blobstore keys queried. -/
def BlobManifest.load (store : Blobstore) (decode : EnvelopeDecoder)
    (manifestid : Node) : Except MError (Option BlobManifest) × List Node :=
  if manifestid = NULL_HASH then
    (.ok (some ⟨store, NULL_HASH, none, none, NULL_HASH,
      ManifestContent.new_empty⟩), [])
  else
    (match (fetch_manifest_envelope_opt store decode manifestid).1 with
     | .error e => .error (.loadingManifest manifestid e)
     | .ok none => .ok none
     | .ok (some envelope) =>
       match BlobManifest.parse store envelope with
       | .error e => .error (.loadingManifest manifestid e)
       | .ok m => .ok (some m),
     (fetch_manifest_envelope_opt store decode manifestid).2)

/-- Modelled from the spec: an entry handle (`HgBlobEntry::new`, crate
file.rs not in the sources) binds the blobstore, the path element, the
entry's node, and its type. -/
structure HgBlobEntry where
  blobstore : Blobstore
  name : PathEl
  id : Node
  ty : HgType

/-- `HgManifest::lookup` for `BlobManifest`: map lookup producing a bound
entry handle; absence is `none`, never an error. -/
def BlobManifest.lookup (m : BlobManifest) (path : PathEl) : Option HgBlobEntry :=
  (btGet path m.content.files).map fun entry_id =>
    ⟨m.blobstore, path, entry_id.into_nodehash, entry_id.get_type⟩

/-- `HgManifest::list` for `BlobManifest`: entry handles for every pair of
the content mapping, in its order. -/
def BlobManifest.list (m : BlobManifest) : List HgBlobEntry :=
  m.content.files.map fun pe =>
    ⟨m.blobstore, pe.1, pe.2.into_nodehash, pe.2.get_type⟩

/-! ## Record serialization (the inverse grammar, used to state
round-trip and duplicate-handling properties) -/

/-- Serialize an entry identity: 40 hex characters plus the flag byte
selecting the variant (`l`, `x`, `t`, or absent for a regular file). -/
def encodeEntryId : HgEntryId → List Nat
  | .file .regular id => to_hex id
  | .file .symlink id => to_hex id ++ [108]
  | .file .executable id => to_hex id ++ [120]
  | .manifest id => to_hex id ++ [116]

/-- Serialize one record: `<path> 0x00 <entry>`. -/
def encodeRecord (r : PathEl × HgEntryId) : List Nat :=
  r.1 ++ 0 :: encodeEntryId r.2

/-- Serialize a record list: each record followed by a newline byte. -/
def encodePayload (rs : List (PathEl × HgEntryId)) : List Nat :=
  rs.foldr (fun r acc => encodeRecord r ++ 10 :: acc) []

/-- A well-formed path component: non-empty, no newline, no zero byte. -/
def validPath (p : PathEl) : Prop := p ≠ [] ∧ 10 ∉ p ∧ 0 ∉ p

/-- A well-formed node: 20 bytes, each below 256. -/
def validNode (n : Node) : Prop := n.length = 20 ∧ ∀ b ∈ n, b < 256

/-- A well-formed record: a valid path and a valid node. -/
def validRecord (r : PathEl × HgEntryId) : Prop :=
  validPath r.1 ∧ validNode r.2.into_nodehash

instance (p : PathEl) : Decidable (validPath p) := by
  unfold validPath; infer_instance

instance (n : Node) : Decidable (validNode n) := by
  unfold validNode; infer_instance

instance (r : PathEl × HgEntryId) : Decidable (validRecord r) := by
  unfold validRecord; infer_instance

/-- Insert every record of the list into the map, left to right. -/
def insertAll (rs : List (PathEl × HgEntryId)) (m : List (PathEl × HgEntryId)) :
    List (PathEl × HgEntryId) :=
  rs.foldl (fun m r => btInsert r.1 r.2 m) m

/-- The entry identity of the last record of the list whose path is `p`. -/
def lastBind (p : PathEl) : List (PathEl × HgEntryId) → Option HgEntryId
  | [] => none
  | r :: rest =>
    match lastBind p rest with
    | some v => some v
    | none => if r.1 = p then some r.2 else none

/-! ## Concrete fixtures for witnesses and counterexamples -/

/-- The byte string "file.txt". -/
def fxFileTxt : List Nat := [102, 105, 108, 101, 46, 116, 120, 116]

/-- The byte string "subdir". -/
def fxSubdir : List Nat := [115, 117, 98, 100, 105, 114]

/-- The scenario payload: `file.txt\0` + 40 `a`s + newline + `subdir\0` +
40 `b`s + `t` + newline. -/
def fxPayload : List Nat :=
  fxFileTxt ++ [0] ++ List.replicate 40 97 ++ [10] ++
    fxSubdir ++ [0] ++ List.replicate 40 98 ++ [116] ++ [10]

/-- The parsed mapping of the scenario payload. -/
def fxPayloadFiles : List (PathEl × HgEntryId) :=
  [(fxFileTxt, .file .regular (List.replicate 20 170)),
   (fxSubdir, .manifest (List.replicate 20 187))]

/-- A well-formed record for `subdir`, used after an empty record. -/
def fxSubdirRecord : List Nat :=
  fxSubdir ++ [0] ++ List.replicate 40 98 ++ [116]

/-- A non-null node of 20 one-bytes. -/
def fxNode1 : Node := List.replicate 20 1

/-- A non-null node of 20 two-bytes. -/
def fxNode2 : Node := List.replicate 20 2

/-- A non-null node of 20 three-bytes. -/
def fxNode3 : Node := List.replicate 20 3

/-- A blobstore holding one blob `[7]` under `fxNode1`. -/
def fxStore : Blobstore := fun n => if n = fxNode1 then some [7] else none

/-- The empty blobstore. -/
def fxStoreEmpty : Blobstore := fun _ => none

/-- An envelope whose self-reported identity is `fxNode2`. -/
def fxEnvMismatch : HgManifestEnvelope := ⟨fxNode2, none, none, fxNode2, []⟩

/-- An envelope for `fxNode1` whose computed identity `fxNode3` differs
from both its own identity and any requested identity. -/
def fxEnvOk : HgManifestEnvelope := ⟨fxNode1, some fxNode2, none, fxNode3, []⟩

/-- An envelope for `fxNode1` with malformed contents (no zero byte). -/
def fxEnvBad : HgManifestEnvelope := ⟨fxNode1, none, none, fxNode1, [1]⟩

/-- Decoder producing the mismatching envelope. -/
def fxDecodeMismatch : EnvelopeDecoder := fun _ => .ok fxEnvMismatch

/-- Decoder producing the well-formed envelope. -/
def fxDecodeOk : EnvelopeDecoder := fun _ => .ok fxEnvOk

/-- Decoder producing the malformed-contents envelope. -/
def fxDecodeBad : EnvelopeDecoder := fun _ => .ok fxEnvBad

/-- Decoder that always fails. -/
def fxDecodeErr : EnvelopeDecoder := fun _ => .error ()

/-- Two well-formed records sharing the path `[97]` ("a"). -/
def fxDupRecords : List (PathEl × HgEntryId) :=
  [([97], .file .regular (List.replicate 20 170)),
   ([97], .manifest (List.replicate 20 187))]

/-- The entry handle for `file.txt` in the scenario manifest. -/
def fxHandle : HgBlobEntry :=
  ⟨fxStoreEmpty, fxFileTxt, List.replicate 20 170, .file .regular⟩

/-! ## Properties of the lexicographic byte order -/

theorem bytesLt_irrefl : ∀ a : List Nat, bytesLt a a = false
  | [] => rfl
  | a :: as => by simp [bytesLt, bytesLt_irrefl as]

theorem bytesLt_asymm : ∀ a b : List Nat, bytesLt a b = true → bytesLt b a = false
  | [], b => by cases b <;> simp [bytesLt]
  | _ :: _, [] => by simp [bytesLt]
  | a :: as, b :: bs => by
    simp only [bytesLt]
    intro h
    split at h
    · have h1 : ¬ b < a := by omega
      have h2 : ¬ b = a := by omega
      simp [h1, h2]
    · split at h
      · rename_i hab heq
        have h1 : ¬ b < a := by omega
        simp [h1, heq.symm, bytesLt_asymm as bs h]
      · exact absurd h (by simp)

theorem bytesLt_conn :
    ∀ a b : List Nat, bytesLt a b = false → bytesLt b a = false → a = b
  | [], b => by cases b <;> simp [bytesLt]
  | _ :: _, [] => by simp [bytesLt]
  | a :: as, b :: bs => by
    simp only [bytesLt]
    intro h1 h2
    split at h1
    · exact absurd h1 (by simp)
    · split at h1
      · rename_i hab heq
        subst heq
        simp only [Nat.lt_irrefl, if_false, if_pos rfl] at h2
        rw [bytesLt_conn as bs h1 h2]
      · rename_i hab heq
        have hba : b < a := by omega
        simp [hba] at h2

theorem bytesLt_trans :
    ∀ a b c : List Nat, bytesLt a b = true → bytesLt b c = true → bytesLt a c = true
  | [], b, c => by cases b <;> cases c <;> simp [bytesLt]
  | _ :: _, [], c => by simp [bytesLt]
  | _ :: _, _ :: _, [] => by simp [bytesLt]
  | a :: as, b :: bs, c :: cs => by
    simp only [bytesLt]
    intro h1 h2
    split at h1
    · split at h2
      · have : a < c := by omega
        simp [this]
      · split at h2
        · rename_i hbc heq
          subst heq
          rename_i hab
          simp [hab]
        · exact absurd h2 (by simp)
    · split at h1
      · rename_i hab heq
        subst heq
        split at h2
        · rename_i hbc
          simp [hbc]
        · split at h2
          · rename_i hbc heq2
            subst heq2
            simp [Nat.lt_irrefl, bytesLt_trans as bs cs h1 h2]
          · exact absurd h2 (by simp)
      · exact absurd h1 (by simp)

/-! ## Shared helper lemmas -/

theorem validate_swap (key : Key) (d : List Nat) (p1 p2 : Option Node) :
    DataEntry.validate ⟨key, d, ⟨p2, p1⟩⟩ = DataEntry.validate ⟨key, d, ⟨p1, p2⟩⟩ := by
  simp only [DataEntry.validate, Parents.into_nodes, bytesGt]
  cases h1 : bytesLt (p1.getD NULL_HASH) (p2.getD NULL_HASH) <;>
    cases h2 : bytesLt (p2.getD NULL_HASH) (p1.getD NULL_HASH)
  · rw [bytesLt_conn _ _ h1 h2]
  · simp
  · simp
  · exact absurd (bytesLt_asymm _ _ h1) (by simp [h2])

theorem fetch_opt_ok_some {store : Blobstore} {decode : EnvelopeDecoder}
    {req : Node} {env : HgManifestEnvelope} :
    (fetch_manifest_envelope_opt store decode req).1 = .ok (some env) →
    env.node_id = req := by
  intro h
  simp only [fetch_manifest_envelope_opt] at h
  cases hs : store req with
  | none => simp only [hs] at h; simp at h
  | some bytes =>
    simp only [hs] at h
    cases hd : decode bytes with
    | error u => cases u; simp only [hd] at h; simp at h
    | ok env' =>
      simp only [hd] at h
      by_cases hne : req = env'.node_id
      · rw [if_neg (not_not_intro hne)] at h
        simp only [Except.ok.injEq, Option.some.injEq] at h
        rw [← h, ← hne]
      · rw [if_pos hne] at h
        simp at h

theorem blobmanifest_parse_ok_eq {bs : Blobstore} {env : HgManifestEnvelope}
    {c : ManifestContent} (h : ManifestContent.parse env.contents = .ok c) :
    BlobManifest.parse bs env =
      .ok ⟨bs, env.node_id, env.p1, env.p2, env.computed_node_id, c⟩ := by
  simp only [BlobManifest.parse, h]

theorem splitByte_ne_nil (sep : Nat) : ∀ l : List Nat, splitByte sep l ≠ []
  | [] => by simp [splitByte]
  | b :: rest => by
    simp only [splitByte]
    split
    · simp
    · cases h : splitByte sep rest with
      | nil => simp
      | cons hd tl => simp

theorem splitByte_append_sep (sep : Nat) :
    ∀ x y : List Nat,
      splitByte sep (x ++ sep :: y) = splitByte sep x ++ splitByte sep y
  | [], y => by simp [splitByte]
  | b :: bs, y => by
    simp only [List.cons_append, splitByte, List.append_eq,
      splitByte_append_sep sep bs y]
    split
    · rfl
    · cases h : splitByte sep bs with
      | nil => exact absurd h (splitByte_ne_nil sep bs)
      | cons hd tl => simp [h]

theorem splitByte_no_sep (sep : Nat) :
    ∀ l : List Nat, (∀ b ∈ l, b ≠ sep) → splitByte sep l = [l]
  | [], _ => rfl
  | b :: rest, h => by
    simp only [splitByte]
    rw [if_neg (h b (by simp))]
    rw [splitByte_no_sep sep rest (fun x hx => h x (by simp [hx]))]

theorem parse_lines_append_empty :
    ∀ (l1 l2 : List (List Nat)) (acc : List (PathEl × HgEntryId)),
      parse_lines (l1 ++ [] :: l2) acc = parse_lines l1 acc
  | [], l2, acc => by simp [parse_lines]
  | line :: rest, l2, acc => by
    simp only [List.cons_append, parse_lines]
    split
    · rfl
    · cases parseLine line with
      | error e => rfl
      | ok r => exact parse_lines_append_empty rest l2 _

theorem parse_lines_isOk :
    ∀ (lines : List (List Nat)) (acc : List (PathEl × HgEntryId)),
      (parse_lines lines acc).isOk = true ↔
        ∀ line ∈ lines.takeWhile (fun l => !l.isEmpty),
          (parseLine line).isOk = true
  | [], acc => by simp [parse_lines, Except.isOk, Except.toBool]
  | line :: rest, acc => by
    simp only [parse_lines]
    by_cases hz : line.length = 0
    · have hemp : line.isEmpty = true := by
        cases line
        · rfl
        · simp at hz
      rw [if_pos hz]
      simp [hemp, Except.isOk, Except.toBool]
    · have hne : line.isEmpty = false := by
        cases line
        · simp at hz
        · rfl
      rw [if_neg hz]
      have htw : (line :: rest).takeWhile (fun l => !l.isEmpty) =
          line :: rest.takeWhile (fun l => !l.isEmpty) := by
        simp [List.takeWhile_cons, hne]
      rw [htw]
      cases hp : parseLine line with
      | error e =>
        constructor
        · intro h; simp [Except.isOk, Except.toBool] at h
        · intro h
          have := h line (by simp)
          rw [hp] at this
          simp [Except.isOk, Except.toBool] at this
      | ok r =>
        rw [parse_lines_isOk rest _]
        constructor
        · intro h l hl
          rcases List.mem_cons.mp hl with h1 | h2
          · rw [h1, hp]; rfl
          · exact h l h2
        · intro h l hl
          exact h l (List.mem_cons_of_mem _ hl)

theorem hexVal_hexDigitChar {n : Nat} (h : n < 16) :
    hexVal (hexDigitChar n) = some n := by
  unfold hexVal hexDigitChar
  by_cases h10 : n < 10
  · rw [if_pos h10, if_pos (by omega)]
    congr 1
    omega
  · rw [if_neg h10, if_neg (by omega), if_pos (by omega)]
    congr 1
    omega

theorem parseHexBytes_to_hex :
    ∀ n : List Nat, (∀ b ∈ n, b < 256) → parseHexBytes (to_hex n) = some n
  | [], _ => rfl
  | b :: rest, h => by
    have hb : b < 256 := h b (by simp)
    simp only [to_hex, parseHexBytes]
    rw [hexVal_hexDigitChar (by omega), hexVal_hexDigitChar (by omega),
      parseHexBytes_to_hex rest (fun x hx => h x (by simp [hx]))]
    simp only []
    have : 16 * (b / 16) + b % 16 = b := by omega
    rw [this]

theorem to_hex_length : ∀ n : List Nat, (to_hex n).length = 2 * n.length
  | [] => rfl
  | b :: rest => by
    simp only [to_hex, List.length_cons, to_hex_length rest]
    omega

theorem to_hex_ge_48 : ∀ n : List Nat, ∀ c ∈ to_hex n, 48 ≤ c
  | [], c => by simp [to_hex]
  | b :: rest, c => by
    simp only [to_hex, List.mem_cons]
    intro hc
    rcases hc with h1 | h2 | h3
    · subst h1; unfold hexDigitChar; split <;> omega
    · subst h2; unfold hexDigitChar; split <;> omega
    · exact to_hex_ge_48 rest c h3

theorem parseHgNodeHash_to_hex {n : Node} (h : validNode n) :
    parseHgNodeHash (to_hex n) = some n := by
  unfold parseHgNodeHash
  rw [if_pos (by rw [to_hex_length, h.1]), parseHexBytes_to_hex n h.2]

theorem parse_hg_entry_encode {e : HgEntryId} (h : validNode e.into_nodehash) :
    parse_hg_entry (encodeEntryId e) = .ok e := by
  have hlen : (to_hex e.into_nodehash).length = 40 := by
    rw [to_hex_length, h.1]
  have hph := parseHgNodeHash_to_hex h
  cases e with
  | file ft id =>
    cases ft <;>
      simp only [encodeEntryId, parse_hg_entry, HgEntryId.into_nodehash] at *
    · rw [if_neg (by omega), ← hlen, List.take_length, List.drop_length, hph]
      rfl
    · rw [if_neg (by simp [hlen]), List.take_left' hlen, List.drop_left' hlen, hph]
      rfl
    · rw [if_neg (by simp [hlen]), List.take_left' hlen, List.drop_left' hlen, hph]
      rfl
  | manifest id =>
    simp only [encodeEntryId, parse_hg_entry, HgEntryId.into_nodehash] at *
    rw [if_neg (by simp [hlen]), List.take_left' hlen, List.drop_left' hlen, hph]
    rfl

theorem find_append_zero :
    ∀ (p rest : List Nat), 0 ∉ p → find (p ++ 0 :: rest) 0 = some p.length
  | [], rest, _ => by simp [find]
  | b :: bs, rest, h => by
    simp only [List.cons_append, find, List.append_eq]
    rw [if_neg (by intro hb; exact h (by simp [hb]))]
    rw [find_append_zero bs rest (fun hm => h (by simp [hm]))]
    rfl

theorem parseLine_encode {r : PathEl × HgEntryId} (h : validRecord r) :
    parseLine (encodeRecord r) = .ok r := by
  obtain ⟨⟨hne, h10, h0⟩, hn⟩ := h
  simp only [parseLine, encodeRecord]
  rw [find_append_zero r.1 (encodeEntryId r.2) h0]
  simp only [List.take_left, List.drop_left]
  have hpath : MPathElement.new r.1 = .ok r.1 := by
    unfold MPathElement.new
    rw [if_neg]
    simp only [Bool.or_eq_true, not_or]
    refine ⟨⟨?_, ?_⟩, ?_⟩
    · simpa using hne
    · simpa using h0
    · simpa using h10
  rw [hpath, parse_hg_entry_encode hn]

theorem encodeEntryId_no_newline {e : HgEntryId} :
    ∀ b ∈ encodeEntryId e, b ≠ 10 := by
  have hhex : ∀ (n : List Nat), ∀ b ∈ to_hex n, b ≠ 10 := by
    intro n b hb
    have := to_hex_ge_48 n b hb
    omega
  cases e with
  | file ft id =>
    cases ft <;> simp only [encodeEntryId] <;> intro b hb
    · exact hhex id b hb
    · rcases List.mem_append.mp hb with h1 | h2
      · exact hhex id b h1
      · simp at h2; omega
    · rcases List.mem_append.mp hb with h1 | h2
      · exact hhex id b h1
      · simp at h2; omega
  | manifest id =>
    simp only [encodeEntryId]
    intro b hb
    rcases List.mem_append.mp hb with h1 | h2
    · exact hhex id b h1
    · simp at h2; omega

theorem encodeRecord_no_newline {r : PathEl × HgEntryId} (h : validRecord r) :
    ∀ b ∈ encodeRecord r, b ≠ 10 := by
  intro b hb
  rcases List.mem_append.mp hb with h1 | h2
  · intro hb10
    subst hb10
    exact h.1.2.1 h1
  · rcases List.mem_cons.mp h2 with h3 | h4
    · omega
    · exact encodeEntryId_no_newline b h4

theorem splitByte_encodePayload :
    ∀ rs : List (PathEl × HgEntryId), (∀ r ∈ rs, validRecord r) →
      splitByte 10 (encodePayload rs) = rs.map encodeRecord ++ [[]]
  | [], _ => rfl
  | r :: rest, h => by
    show splitByte 10 (encodeRecord r ++ 10 :: encodePayload rest) = _
    rw [splitByte_append_sep,
      splitByte_no_sep 10 _ (encodeRecord_no_newline (h r (by simp))),
      splitByte_encodePayload rest (fun x hx => h x (by simp [hx]))]
    rfl

theorem parse_lines_encode :
    ∀ (rs : List (PathEl × HgEntryId)) (m : List (PathEl × HgEntryId)),
      (∀ r ∈ rs, validRecord r) →
      parse_lines (rs.map encodeRecord ++ [[]]) m = .ok (insertAll rs m)
  | [], m, _ => rfl
  | r :: rest, m, h => by
    simp only [List.map_cons, List.cons_append, parse_lines]
    rw [if_neg, parseLine_encode (h r (by simp))]
    · exact parse_lines_encode rest _ (fun x hx => h x (by simp [hx]))
    · have : r.1 ≠ [] := (h r (by simp)).1.1
      simp [encodeRecord]

theorem btGet_btInsert_self (k : PathEl) (v : HgEntryId) :
    ∀ m, btGet k (btInsert k v m) = some v
  | [] => by simp [btInsert, btGet]
  | (k', v') :: rest => by
    simp only [btInsert]
    split
    · simp [btGet]
    · split
      · simp [btGet]
      · rename_i hlt heq
        simp only [btGet]
        rw [if_neg heq, btGet_btInsert_self k v rest]

theorem btGet_btInsert_ne {j k : PathEl} (v : HgEntryId) (h : j ≠ k) :
    ∀ m, btGet j (btInsert k v m) = btGet j m
  | [] => by
    simp only [btInsert, btGet]
    rw [if_neg h]
  | (k', v') :: rest => by
    simp only [btInsert]
    split
    · simp only [btGet]
      rw [if_neg h]
    · split
      · rename_i hlt heq
        subst heq
        simp only [btGet]
        rw [if_neg h, if_neg h]
      · simp only [btGet]
        split
        · rfl
        · exact btGet_btInsert_ne v h rest

theorem btGet_insertAll :
    ∀ (rs m : List (PathEl × HgEntryId)) (p : PathEl),
      btGet p (insertAll rs m) =
        match lastBind p rs with
        | some v => some v
        | none => btGet p m
  | [], m, p => rfl
  | r :: rest, m, p => by
    show btGet p (insertAll rest (btInsert r.1 r.2 m)) = _
    rw [btGet_insertAll rest _ p]
    simp only [lastBind]
    cases lastBind p rest with
    | some v => rfl
    | none =>
      simp only []
      by_cases hp : r.1 = p
      · subst hp
        rw [if_pos rfl, btGet_btInsert_self]
      · rw [if_neg hp, btGet_btInsert_ne r.2 (fun hh => hp hh.symm)]

theorem mem_btInsert {x : PathEl × HgEntryId} {k : PathEl} {v : HgEntryId} :
    ∀ m, x ∈ btInsert k v m → x = (k, v) ∨ x ∈ m
  | [] => by simp [btInsert]
  | (k', v') :: rest => by
    simp only [btInsert]
    split
    · intro h
      rcases List.mem_cons.mp h with h1 | h2
      · exact Or.inl h1
      · exact Or.inr h2
    · split
      · intro h
        rcases List.mem_cons.mp h with h1 | h2
        · exact Or.inl h1
        · exact Or.inr (List.mem_cons_of_mem _ h2)
      · intro h
        rcases List.mem_cons.mp h with h1 | h2
        · exact Or.inr (by simp [h1])
        · rcases mem_btInsert rest h2 with h3 | h4
          · exact Or.inl h3
          · exact Or.inr (List.mem_cons_of_mem _ h4)

theorem btInsert_pairwise {k : PathEl} {v : HgEntryId} :
    ∀ m, m.Pairwise (fun a b => bytesLt a.1 b.1 = true) →
      (btInsert k v m).Pairwise (fun a b => bytesLt a.1 b.1 = true)
  | [], _ => by simp [btInsert]
  | (k', v') :: rest, h => by
    have hrest := List.pairwise_cons.mp h
    simp only [btInsert]
    split
    · rename_i hlt
      refine List.pairwise_cons.mpr ⟨?_, h⟩
      intro x hx
      rcases List.mem_cons.mp hx with h1 | h2
      · subst h1; exact hlt
      · exact bytesLt_trans _ _ _ hlt (hrest.1 x h2)
    · split
      · rename_i hlt heq
        subst heq
        exact List.pairwise_cons.mpr ⟨hrest.1, hrest.2⟩
      · rename_i hlt heq
        refine List.pairwise_cons.mpr ⟨?_, btInsert_pairwise rest hrest.2⟩
        intro x hx
        rcases mem_btInsert _ hx with h1 | h2
        · subst h1
          show bytesLt k' k = true
          cases hc : bytesLt k' k
          · exact absurd (bytesLt_conn _ _ (by simpa using hlt) hc) heq
          · rfl
        · exact hrest.1 x h2

theorem parse_lines_pairwise :
    ∀ (lines : List (List Nat)) (acc files : List (PathEl × HgEntryId)),
      acc.Pairwise (fun a b => bytesLt a.1 b.1 = true) →
      parse_lines lines acc = .ok files →
      files.Pairwise (fun a b => bytesLt a.1 b.1 = true)
  | [], acc, files, ha, h => by
    simp only [parse_lines, Except.ok.injEq] at h
    rw [← h]; exact ha
  | line :: rest, acc, files, ha, h => by
    simp only [parse_lines] at h
    split at h
    · simp only [Except.ok.injEq] at h
      rw [← h]; exact ha
    · cases hp : parseLine line with
      | error e => rw [hp] at h; simp at h
      | ok r =>
        rw [hp] at h
        exact parse_lines_pairwise rest _ files (btInsert_pairwise _ ha) h

theorem parse_impl_pairwise {data : List Nat} {files : List (PathEl × HgEntryId)}
    (h : ManifestContent.parse_impl data = .ok files) :
    files.Pairwise (fun a b => bytesLt a.1 b.1 = true) :=
  parse_lines_pairwise _ [] files (by simp) h

theorem filter_sorted_btGet {p : PathEl} :
    ∀ m : List (PathEl × HgEntryId),
      m.Pairwise (fun a b => bytesLt a.1 b.1 = true) →
      m.filter (fun x => x.1 == p) =
        (match btGet p m with
         | some e => [(p, e)]
         | none => [])
  | [], _ => rfl
  | (k', v') :: rest, hs => by
    have hrest := List.pairwise_cons.mp hs
    by_cases hp : k' = p
    · subst hp
      have hnil : rest.filter (fun x => x.1 == k') = [] := by
        apply List.filter_eq_nil_iff.mpr
        intro x hx
        have := hrest.1 x hx
        simp only [beq_iff_eq]
        intro hxk
        rw [hxk] at this
        rw [bytesLt_irrefl] at this
        simp at this
      simp [List.filter_cons, hnil, btGet]
    · have hpred : ((k', v').1 == p) = false := by
        simp [hp]
      simp only [List.filter_cons, hpred, Bool.false_eq_true, if_false, btGet]
      rw [if_neg (fun hh => hp hh.symm)]
      exact filter_sorted_btGet rest hrest.2

theorem filter_map_handle (bs : Blobstore) (p : PathEl) :
    ∀ l : List (PathEl × HgEntryId),
      ((l.map fun pe : PathEl × HgEntryId =>
          HgBlobEntry.mk bs pe.1 pe.2.into_nodehash pe.2.get_type).filter
        (fun x => x.name == p)) =
      (l.filter (fun x => x.1 == p)).map fun pe : PathEl × HgEntryId =>
          HgBlobEntry.mk bs pe.1 pe.2.into_nodehash pe.2.get_type
  | [] => rfl
  | x :: rest => by
    simp only [List.map_cons, List.filter_cons]
    cases hx : (x.1 == p) with
    | true => simp [hx, filter_map_handle bs p rest]
    | false => simp [hx, filter_map_handle bs p rest]

/-! ## Claim theorems -/

set_option maxRecDepth 40000 in
/-- C1: `DataEntry::validate` succeeds if and only if the SHA-1 digest of
(sorted-first parent || sorted-second parent || data) equals the key's
node, where the sorted-first parent is the byte-wise smaller of the two
regardless of its original p1/p2 role; on failure the error names the
expected and computed identities in hex.  In particular, for p1 = 0xbb×20
and p2 = 0xaa×20 the hash input is p2 || p1 || d, and the unsorted order
produces a different, non-matching digest. -/
theorem c1_validate_sorted_parent_hash :
    (∀ (kp d : List Nat) (k : Node) (p1 p2 : Option Node),
      (DataEntry.validate ⟨⟨kp, k⟩, d, ⟨p1, p2⟩⟩ = .ok () ↔
        sha1 (bytesMin (p1.getD NULL_HASH) (p2.getD NULL_HASH) ++
          bytesMax (p1.getD NULL_HASH) (p2.getD NULL_HASH) ++ d) = k)
      ∧ (DataEntry.validate ⟨⟨kp, k⟩, d, ⟨p1, p2⟩⟩ = .ok () ∨
         DataEntry.validate ⟨⟨kp, k⟩, d, ⟨p1, p2⟩⟩ =
           .error ⟨to_hex k,
             to_hex (sha1 (bytesMin (p1.getD NULL_HASH) (p2.getD NULL_HASH) ++
               bytesMax (p1.getD NULL_HASH) (p2.getD NULL_HASH) ++ d))⟩))
    ∧ (DataEntry.validate
        ⟨⟨[], sha1 (List.replicate 20 170 ++ List.replicate 20 187 ++
            [100, 97, 116, 97])⟩,
         [100, 97, 116, 97],
         ⟨some (List.replicate 20 187), some (List.replicate 20 170)⟩⟩ = .ok ()
       ∧ sha1 (List.replicate 20 187 ++ List.replicate 20 170 ++
           [100, 97, 116, 97]) ≠
         sha1 (List.replicate 20 170 ++ List.replicate 20 187 ++
           [100, 97, 116, 97])
       ∧ DataEntry.validate
           ⟨⟨[], sha1 (List.replicate 20 187 ++ List.replicate 20 170 ++
               [100, 97, 116, 97])⟩,
            [100, 97, 116, 97],
            ⟨some (List.replicate 20 187), some (List.replicate 20 170)⟩⟩ =
         .error ⟨to_hex (sha1 (List.replicate 20 187 ++ List.replicate 20 170 ++
             [100, 97, 116, 97])),
           to_hex (sha1 (List.replicate 20 170 ++ List.replicate 20 187 ++
             [100, 97, 116, 97]))⟩) := by
  constructor
  · intro kp d k p1 p2
    simp only [DataEntry.validate, Parents.into_nodes, bytesGt, bytesMin, bytesMax]
    cases h : bytesLt (p2.getD NULL_HASH) (p1.getD NULL_HASH) <;>
      simp only [if_true, if_false, Bool.false_eq_true, ite_true, ite_false] <;>
      constructor
    · constructor
      · intro hv
        split at hv
        · assumption
        · exact absurd hv (by simp)
      · intro he
        rw [if_pos he]
    · split
      · exact Or.inl rfl
      · exact Or.inr rfl
    · constructor
      · intro hv
        split at hv
        · assumption
        · exact absurd hv (by simp)
      · intro he
        rw [if_pos he]
    · split
      · exact Or.inl rfl
      · exact Or.inr rfl
  · refine ⟨by decide, by decide, by decide⟩

/-- C2: when the blobstore returns bytes decoding to an envelope whose
self-reported `node_id` differs from the requested non-null identity,
`fetch_manifest_envelope_opt`, `fetch_manifest_envelope` and
`BlobManifest::load` all fail with an identity-mismatch error naming both
values; and whenever `load` returns a tree for a non-null identity, the
tree's `node_id` equals the requested identity. -/
theorem c2_identity_mismatch :
    (∀ (store : Blobstore) (decode : EnvelopeDecoder) (req : Node)
       (bytes : List Nat) (env : HgManifestEnvelope),
       req ≠ NULL_HASH →
       store req = some bytes →
       decode bytes = .ok env →
       env.node_id ≠ req →
       (fetch_manifest_envelope_opt store decode req).1 =
         .error (.manifestDeserializeFailed req (.idMismatch req env.node_id))
       ∧ (fetch_manifest_envelope store decode req).1 =
         .error (.manifestDeserializeFailed req (.idMismatch req env.node_id))
       ∧ (BlobManifest.load store decode req).1 =
         .error (.loadingManifest req
           (.manifestDeserializeFailed req (.idMismatch req env.node_id))))
    ∧ (∀ (store : Blobstore) (decode : EnvelopeDecoder) (req : Node)
         (m : BlobManifest),
         req ≠ NULL_HASH →
         (BlobManifest.load store decode req).1 = .ok (some m) →
         m.node_id = req) := by
  constructor
  · intro store decode req bytes env hnull hs hd hne
    have hopt : (fetch_manifest_envelope_opt store decode req).1 =
        .error (.manifestDeserializeFailed req (.idMismatch req env.node_id)) := by
      simp only [fetch_manifest_envelope_opt, hs, hd]
      rw [if_pos (Ne.symm hne)]
    refine ⟨hopt, ?_, ?_⟩
    · simp only [fetch_manifest_envelope, hopt]
    · simp only [BlobManifest.load, if_neg hnull, hopt]
  · intro store decode req m hnull hld
    simp only [BlobManifest.load, if_neg hnull] at hld
    cases hopt : (fetch_manifest_envelope_opt store decode req).1 with
    | error e => simp only [hopt] at hld; simp at hld
    | ok v =>
      cases v with
      | none => simp only [hopt] at hld; simp at hld
      | some env =>
        simp only [hopt] at hld
        cases hp : BlobManifest.parse store env with
        | error e => simp only [hp] at hld; simp at hld
        | ok m' =>
          simp only [hp] at hld
          simp only [Except.ok.injEq, Option.some.injEq] at hld
          subst hld
          have he := fetch_opt_ok_some hopt
          cases hc : ManifestContent.parse env.contents with
          | error e => simp only [BlobManifest.parse, hc] at hp; simp at hp
          | ok c =>
            rw [blobmanifest_parse_ok_eq hc] at hp
            simp only [Except.ok.injEq] at hp
            rw [← hp]
            exact he

/-- C2 witness: a concrete mismatching envelope makes the fetch fail with
the identity-mismatch error, and a concrete successful load returns a tree
whose `node_id` is the requested identity. -/
theorem c2_identity_mismatch_witness :
    (fetch_manifest_envelope_opt fxStore fxDecodeMismatch fxNode1).1 =
      .error (.manifestDeserializeFailed fxNode1 (.idMismatch fxNode1 fxNode2))
    ∧ (⟨fxStore, fxNode1, some fxNode2, none, fxNode3,
        ⟨[]⟩⟩ : BlobManifest).node_id = fxNode1 := by
  constructor
  · exact (c2_identity_mismatch.1 fxStore fxDecodeMismatch fxNode1 [7]
      fxEnvMismatch (by decide) rfl rfl (by decide)).1
  · exact c2_identity_mismatch.2 fxStore fxDecodeOk fxNode1 _ (by decide) rfl

/-- C3 counterexample: a payload beginning with an empty record is parsed
successfully as the empty mapping, silently ignoring the well-formed
record that follows the empty record — the same record parses to a
non-empty mapping on its own.  This refutes the claim that an empty record
terminates parsing only as the trailing end-of-data marker and that no
record after an empty record is silently ignored by a successful parse. -/
theorem c3_empty_record_counterexample :
    ManifestContent.parse_impl ([10] ++ fxSubdirRecord) = .ok []
    ∧ ManifestContent.parse_impl fxSubdirRecord =
        .ok [(fxSubdir, .manifest (List.replicate 20 187))] := by
  constructor <;> decide

/-- C3 (amended): an empty record terminates parsing without error
wherever it appears, and everything after the first empty record — further
records, well-formed or malformed — is silently ignored; within the
records before the first empty record, parsing is strict: it succeeds if
and only if every such record conforms to the grammar. -/
theorem c3_empty_record_truncates :
    (∀ d1 d2 : List Nat,
       ManifestContent.parse_impl (d1 ++ 10 :: 10 :: d2) =
         ManifestContent.parse_impl d1)
    ∧ (∀ d2 : List Nat, ManifestContent.parse_impl (10 :: d2) = .ok [])
    ∧ (∀ data : List Nat,
       (ManifestContent.parse_impl data).isOk = true ↔
         ∀ line ∈ (splitByte 10 data).takeWhile (fun l => !l.isEmpty),
           (parseLine line).isOk = true) := by
  refine ⟨?_, ?_, ?_⟩
  · intro d1 d2
    show parse_lines (splitByte 10 (d1 ++ 10 :: 10 :: d2)) [] = _
    rw [splitByte_append_sep 10 d1 (10 :: d2)]
    show parse_lines (splitByte 10 d1 ++ [] :: splitByte 10 d2) [] = _
    rw [parse_lines_append_empty]
    rfl
  · intro d2
    rfl
  · intro data
    exact parse_lines_isOk (splitByte 10 data) []

/-- C4: for a record whose 40-hex node field is well-formed, the parsed
entry identity is determined by the trailing flag byte: absent gives
File(Regular), `l` Symlink, `x` Executable, `t` Tree; any other byte is an
"unknown flag" error naming the byte, and more than one flag byte is a
hard error.  The scenario payload parses into
{file.txt ↦ File(Regular, a×20), subdir ↦ Tree(b×20)}. -/
theorem c4_flag_byte_mapping :
    (∀ (hex : List Nat) (node : Node),
      parseHgNodeHash hex = some node →
      parse_hg_entry hex = .ok (.file .regular node)
      ∧ parse_hg_entry (hex ++ [108]) = .ok (.file .symlink node)
      ∧ parse_hg_entry (hex ++ [120]) = .ok (.file .executable node)
      ∧ parse_hg_entry (hex ++ [116]) = .ok (.manifest node)
      ∧ (∀ f, f ≠ 108 → f ≠ 120 → f ≠ 116 →
           parse_hg_entry (hex ++ [f]) = .error (.unknownFlag f))
      ∧ (∀ f1 f2 fs, parse_hg_entry (hex ++ f1 :: f2 :: fs) =
           .error (.tooManyFlags (f1 :: f2 :: fs))))
    ∧ ManifestContent.parse_impl fxPayload = .ok fxPayloadFiles := by
  constructor
  · intro hex node h
    have hlen : hex.length = 40 := by
      by_contra hc
      simp [parseHgNodeHash, hc] at h
    have htk : ∀ fl : List Nat, (hex ++ fl).take 40 = hex :=
      fun fl => List.take_left' hlen
    have hdr : ∀ fl : List Nat, (hex ++ fl).drop 40 = fl :=
      fun fl => List.drop_left' hlen
    have h40 : hex.take 40 = hex := by rw [← hlen]; exact List.take_length hex
    have hd0 : hex.drop 40 = [] := List.drop_eq_nil_of_le (by omega)
    refine ⟨?_, ?_, ?_, ?_, ?_, ?_⟩
    · simp only [parse_hg_entry, hlen]
      rw [if_neg (by omega), h40, h, hd0]
      rfl
    · simp only [parse_hg_entry]
      rw [if_neg (by simp [hlen]), htk, hdr, h]
      rfl
    · simp only [parse_hg_entry]
      rw [if_neg (by simp [hlen]), htk, hdr, h]
      rfl
    · simp only [parse_hg_entry]
      rw [if_neg (by simp [hlen]), htk, hdr, h]
      rfl
    · intro f hf1 hf2 hf3
      simp only [parse_hg_entry]
      rw [if_neg (by simp [hlen]), htk, hdr]
      simp only [h]
      rw [if_pos (by simp)]
      simp [hf1, hf2, hf3]
    · intro f1 f2 fs
      simp only [parse_hg_entry]
      rw [if_neg (by simp [hlen]), htk, hdr]
      simp only [h]
      rw [if_neg (by simp)]
  · decide

/-- C4 witness: the flag-byte mapping applied at 40 `a` characters:
absent flag, `t`, an unknown flag `z` (122), and a doubled flag. -/
theorem c4_flag_byte_mapping_witness :
    parse_hg_entry (List.replicate 40 97) =
      .ok (.file .regular (List.replicate 20 170))
    ∧ parse_hg_entry (List.replicate 40 97 ++ [116]) =
        .ok (.manifest (List.replicate 20 170))
    ∧ parse_hg_entry (List.replicate 40 97 ++ [122]) =
        .error (.unknownFlag 122)
    ∧ parse_hg_entry (List.replicate 40 97 ++ [116, 116]) =
        .error (.tooManyFlags [116, 116]) := by
  have h := c4_flag_byte_mapping.1 (List.replicate 40 97)
    (List.replicate 20 170) (by decide)
  exact ⟨h.1, h.2.2.2.1,
    h.2.2.2.2.1 122 (by decide) (by decide) (by decide),
    h.2.2.2.2.2 116 116 []⟩

/-- C5: loading the null identity yields a tree with zero children, no
parents, a null computed identity and a null own identity, and queries the
blobstore for no key at all. -/
theorem c5_null_load :
    ∀ (store : Blobstore) (decode : EnvelopeDecoder),
      (BlobManifest.load store decode NULL_HASH).2 = []
      ∧ ∃ m : BlobManifest,
          (BlobManifest.load store decode NULL_HASH).1 = .ok (some m)
          ∧ m.list = [] ∧ m.p1 = none ∧ m.p2 = none
          ∧ m.computed_node_id = NULL_HASH ∧ m.node_id = NULL_HASH := by
  intro store decode
  exact ⟨rfl, ⟨_, rfl, rfl, rfl, rfl, rfl, rfl⟩⟩

/-- C6: an absent blob makes `fetch_manifest_envelope` fail with the
content-missing error while `fetch_manifest_envelope_opt` returns `none`
without error and `BlobManifest::load` returns absence as a value; a
present blob with malformed contents (or one that fails to decode) still
fails hard, so the missing case is never conflated with the malformed
case. -/
theorem c6_missing_vs_malformed :
    (∀ (store : Blobstore) (decode : EnvelopeDecoder) (req : Node),
       store req = none →
       (fetch_manifest_envelope store decode req).1 =
         .error (.hgContentMissing req .tree)
       ∧ (fetch_manifest_envelope_opt store decode req).1 = .ok none
       ∧ (req ≠ NULL_HASH → (BlobManifest.load store decode req).1 = .ok none))
    ∧ (∀ (store : Blobstore) (decode : EnvelopeDecoder) (req : Node)
         (bytes : List Nat) (env : HgManifestEnvelope) (e : MError),
         req ≠ NULL_HASH → store req = some bytes → decode bytes = .ok env →
         env.node_id = req →
         ManifestContent.parse env.contents = .error e →
         (BlobManifest.load store decode req).1 =
           .error (.loadingManifest req (.parsingManifestContents req e)))
    ∧ (∀ (store : Blobstore) (decode : EnvelopeDecoder) (req : Node)
         (bytes : List Nat),
         req ≠ NULL_HASH → store req = some bytes → decode bytes = .error () →
         (BlobManifest.load store decode req).1 =
           .error (.loadingManifest req
             (.manifestDeserializeFailed req .envelopeDecodeFailed))) := by
  refine ⟨?_, ?_, ?_⟩
  · intro store decode req hs
    have hopt : (fetch_manifest_envelope_opt store decode req).1 = .ok none := by
      simp only [fetch_manifest_envelope_opt, hs]
    refine ⟨?_, hopt, ?_⟩
    · simp only [fetch_manifest_envelope, hopt]
    · intro hnull
      simp only [BlobManifest.load, if_neg hnull, hopt]
  · intro store decode req bytes env e hnull hs hd hid hc
    have hopt : (fetch_manifest_envelope_opt store decode req).1 =
        .ok (some env) := by
      simp only [fetch_manifest_envelope_opt, hs, hd]
      rw [if_neg (not_not_intro hid.symm)]
    simp only [BlobManifest.load, if_neg hnull, hopt, BlobManifest.parse, hc, hid]
  · intro store decode req bytes hnull hs hd
    have hopt : (fetch_manifest_envelope_opt store decode req).1 =
        .error (.manifestDeserializeFailed req .envelopeDecodeFailed) := by
      simp only [fetch_manifest_envelope_opt, hs, hd]
    simp only [BlobManifest.load, if_neg hnull, hopt]

/-- C6 witness: concrete missing, malformed-contents and undecodable
blobs. -/
theorem c6_missing_vs_malformed_witness :
    (fetch_manifest_envelope fxStoreEmpty fxDecodeOk fxNode1).1 =
      .error (.hgContentMissing fxNode1 .tree)
    ∧ (fetch_manifest_envelope_opt fxStoreEmpty fxDecodeOk fxNode1).1 = .ok none
    ∧ (BlobManifest.load fxStoreEmpty fxDecodeOk fxNode1).1 = .ok none
    ∧ (BlobManifest.load fxStore fxDecodeBad fxNode1).1 =
        .error (.loadingManifest fxNode1
          (.parsingManifestContents fxNode1 .noNul))
    ∧ (BlobManifest.load fxStore fxDecodeErr fxNode1).1 =
        .error (.loadingManifest fxNode1
          (.manifestDeserializeFailed fxNode1 .envelopeDecodeFailed)) := by
  have h1 := c6_missing_vs_malformed.1 fxStoreEmpty fxDecodeOk fxNode1 rfl
  refine ⟨h1.1, h1.2.1, h1.2.2 (by decide), ?_, ?_⟩
  · exact c6_missing_vs_malformed.2.1 fxStore fxDecodeBad fxNode1 [7] fxEnvBad
      .noNul (by decide) rfl rfl (by decide) (by decide)
  · exact c6_missing_vs_malformed.2.2 fxStore fxDecodeErr fxNode1 [7]
      (by decide) rfl rfl

/-- C7: for any list of well-formed records — in particular one in which a
path occurs in more than one record — parsing the serialized payload
succeeds with the map obtained by inserting every record in order, and
each path is bound to the entry identity of its last occurrence. -/
theorem c7_duplicates_last_wins :
    ∀ rs : List (PathEl × HgEntryId),
      (∀ r ∈ rs, validRecord r) →
      ManifestContent.parse_impl (encodePayload rs) = .ok (insertAll rs [])
      ∧ ∀ p : PathEl, btGet p (insertAll rs []) = lastBind p rs := by
  intro rs h
  constructor
  · show parse_lines (splitByte 10 (encodePayload rs)) [] = _
    rw [splitByte_encodePayload rs h, parse_lines_encode rs [] h]
  · intro p
    rw [btGet_insertAll rs [] p]
    cases lastBind p rs <;> rfl

/-- C7 witness: two records sharing the path "a": parsing succeeds and the
lookup returns the entry of the last occurrence. -/
theorem c7_duplicates_last_wins_witness :
    ManifestContent.parse_impl (encodePayload fxDupRecords) =
      .ok (insertAll fxDupRecords [])
    ∧ btGet [97] (insertAll fxDupRecords []) = lastBind [97] fxDupRecords := by
  have h := c7_duplicates_last_wins fxDupRecords (by decide)
  exact ⟨h.1, h.2 [97]⟩

/-- C8: for a tree whose content was produced by the parser, `lookup p`
returns a handle if and only if `list()` contains exactly that handle as
the only entry with path `p` (absence is `none`, never an error, by the
return type), and the sequence produced by `list()` is strictly increasing
by path-segment byte order. -/
theorem c8_lookup_list_consistency :
    ∀ (data : List Nat) (files : List (PathEl × HgEntryId)) (bs : Blobstore)
      (nid : Node) (op1 op2 : Option Node) (cid : Node),
      ManifestContent.parse_impl data = .ok files →
      (∀ (p : PathEl) (h : HgBlobEntry),
        (BlobManifest.mk bs nid op1 op2 cid ⟨files⟩).lookup p = some h ↔
          (BlobManifest.mk bs nid op1 op2 cid ⟨files⟩).list.filter
            (fun x => x.name == p) = [h])
      ∧ ((BlobManifest.mk bs nid op1 op2 cid ⟨files⟩).list).Pairwise
          (fun a b => bytesLt a.name b.name = true) := by
  intro data files bs nid op1 op2 cid hp
  have hsorted := parse_impl_pairwise hp
  constructor
  · intro p h
    simp only [BlobManifest.lookup, BlobManifest.list]
    rw [filter_map_handle bs p files, filter_sorted_btGet files hsorted]
    cases hg : btGet p files with
    | none => simp
    | some e => simp
  · simp only [BlobManifest.list]
    rw [List.pairwise_map]
    exact hsorted

/-- C8 witness: the scenario manifest, the path "file.txt" and its
handle. -/
theorem c8_lookup_list_consistency_witness :
    ((BlobManifest.mk fxStoreEmpty fxNode1 none none fxNode1
        ⟨fxPayloadFiles⟩).lookup fxFileTxt = some fxHandle ↔
      (BlobManifest.mk fxStoreEmpty fxNode1 none none fxNode1
        ⟨fxPayloadFiles⟩).list.filter (fun x => x.name == fxFileTxt) =
        [fxHandle])
    ∧ ((BlobManifest.mk fxStoreEmpty fxNode1 none none fxNode1
        ⟨fxPayloadFiles⟩).list).Pairwise
        (fun a b => bytesLt a.name b.name = true) := by
  have h := c8_lookup_list_consistency fxPayload fxPayloadFiles fxStoreEmpty
    fxNode1 none none fxNode1 (by decide)
  exact ⟨h.1 fxFileTxt fxHandle, h.2⟩

/-- C9: `DataEntry::validate` is symmetric in its parents: swapping p1 and
p2 (keeping the key and payload) preserves success of `validate()`, and
`data(true)` succeeds on one entry exactly when it succeeds on the
other. -/
theorem c9_parent_order_symmetry :
    ∀ (key : Key) (d : List Nat) (p1 p2 : Option Node),
      (DataEntry.validate ⟨key, d, ⟨p1, p2⟩⟩ = .ok () ↔
       DataEntry.validate ⟨key, d, ⟨p2, p1⟩⟩ = .ok ())
      ∧ ((DataEntry.get_data ⟨key, d, ⟨p1, p2⟩⟩ true).isOk ↔
         (DataEntry.get_data ⟨key, d, ⟨p2, p1⟩⟩ true).isOk) := by
  intro key d p1 p2
  constructor
  · rw [validate_swap key d p1 p2]
  · simp only [DataEntry.get_data, if_true]
    rw [validate_swap key d p1 p2]

/-- C10: `BlobManifest::parse` never checks `computed_node_id`: it
succeeds for every envelope whose contents parse, whatever the value of
that field — hence `load` succeeds even when it differs from both the
envelope's identity and the requested identity — and the resulting tree
carries the field verbatim. -/
theorem c10_computed_node_id_unchecked :
    (∀ (bs : Blobstore) (env : HgManifestEnvelope) (c : ManifestContent),
       ManifestContent.parse env.contents = .ok c →
       BlobManifest.parse bs env =
         .ok ⟨bs, env.node_id, env.p1, env.p2, env.computed_node_id, c⟩)
    ∧ (∀ (store : Blobstore) (decode : EnvelopeDecoder) (req : Node)
         (bytes : List Nat) (env : HgManifestEnvelope) (c : ManifestContent),
         req ≠ NULL_HASH →
         store req = some bytes → decode bytes = .ok env → env.node_id = req →
         ManifestContent.parse env.contents = .ok c →
         (BlobManifest.load store decode req).1 =
           .ok (some ⟨store, req, env.p1, env.p2, env.computed_node_id, c⟩)) := by
  constructor
  · intro bs env c h
    simp only [BlobManifest.parse, h]
  · intro store decode req bytes env c hnull hs hd hid hc
    have hopt : (fetch_manifest_envelope_opt store decode req).1 =
        .ok (some env) := by
      simp only [fetch_manifest_envelope_opt, hs, hd]
      rw [if_neg (not_not_intro hid.symm)]
    simp only [BlobManifest.load, if_neg hnull, hopt, BlobManifest.parse, hc, hid]

/-- C10 witness: an envelope whose computed identity `fxNode3` differs
from both its own identity and the requested identity `fxNode1` still
parses and loads, and the tree carries `fxNode3` verbatim. -/
theorem c10_computed_node_id_unchecked_witness :
    BlobManifest.parse fxStore fxEnvOk =
      .ok ⟨fxStore, fxNode1, some fxNode2, none, fxNode3, ⟨[]⟩⟩
    ∧ (BlobManifest.load fxStore fxDecodeOk fxNode1).1 =
        .ok (some ⟨fxStore, fxNode1, some fxNode2, none, fxNode3, ⟨[]⟩⟩) := by
  constructor
  · exact c10_computed_node_id_unchecked.1 fxStore fxEnvOk ⟨[]⟩ rfl
  · exact c10_computed_node_id_unchecked.2 fxStore fxDecodeOk fxNode1 [7]
      fxEnvOk ⟨[]⟩ (by decide) rfl rfl rfl rfl

end Sapling
